import Mathlib

/-!
Shallow embedding of the calculation logic of `src/app.py`, the Streamlit
commission-and-incentive calculator.  Python floats are modelled as exact
rationals; Python's `round(x, nd)` (banker's rounding, round-half-to-even)
is modelled by `pyRound`.  Streamlit session state (the list of saved deals)
is modelled by explicit `List Deal` arguments; the per-button handlers become
functions from the old list to the new list.
-/

namespace CommissionApp

/-- Embeds `clamp_0_1` (app.py line 19): clamp a rational to `[0, 1]`. -/
def clamp_0_1 (x : ℚ) : ℚ := max 0 (min 1 x)

/-- Embeds `clamp_0_100` (app.py lines 413 and 591): clamp to `[0, 100]`. -/
def clamp_0_100 (x : ℚ) : ℚ := max 0 (min 100 x)

/-- Python's `round` on a rational with zero decimal places: round half to even. -/
def pyRoundInt (x : ℚ) : ℤ :=
  if x - ⌊x⌋ < 1/2 then ⌊x⌋
  else if x - ⌊x⌋ > 1/2 then ⌊x⌋ + 1
  else if Even ⌊x⌋ then ⌊x⌋ else ⌊x⌋ + 1

/-- Python's `round(x, nd)`: round half to even at `nd` decimal places. -/
def pyRound (nd : ℕ) (x : ℚ) : ℚ := (pyRoundInt (x * 10 ^ nd) : ℚ) / 10 ^ nd

/-- A saved deal row, as appended to `st.session_state.sales_rows`
(app.py lines 144-155, 182-193, 230-241, 272-283).  `pairs` is `none` for
the Build and DC Grid categories, whose rows store the empty string there. -/
structure Deal where
  date : String
  category : String
  customer : String
  contractValue : ℚ
  pairs : Option ℤ
  ratePct : ℚ
  commission : ℚ
  currency : String

deriving instance DecidableEq for Deal

/-- IRU rate (app.py lines 139-141): base 3% plus 0.1% per extra pair. -/
def iruRate (pairs : ℤ) : ℚ := 0.03 + (max (pairs - 1) 0 : ℤ) * 0.001

/-- The deal row built by the `Add IRU` handler (app.py lines 138-155). -/
def mkIRUDeal (d cust : String) (value : ℚ) (pairs : ℤ) (cur : String) : Deal :=
  { date := d, category := "IRU", customer := cust, contractValue := value,
    pairs := some pairs, ratePct := pyRound 3 (iruRate pairs * 100),
    commission := value * iruRate pairs, currency := cur }

/-- The `Add IRU` handler's effect on the saved rows (app.py lines 144-156). -/
def add_iru (rows : List Deal) (d cust : String) (value : ℚ) (pairs : ℤ)
    (cur : String) : List Deal :=
  rows ++ [mkIRUDeal d cust value pairs cur]

/-- Fiber Lease rate (app.py lines 177-179): base 2% plus 0.1% per extra pair. -/
def leaseRate (pairs : ℤ) : ℚ := 0.02 + (max (pairs - 1) 0 : ℤ) * 0.001

/-- Build-to-Own base rate before the prepaid offset (app.py lines 217-223). -/
def buildBase (v : ℚ) : ℚ :=
  if v < 5000000 then 0.012
  else if v ≤ 15000000 then 0.015 + (0.03 - 0.015) * clamp_0_1 ((v - 5000000) / 10000000)
  else 0.03

/-- Build-to-Own rate with the optional 50%-prepaid offset (app.py lines 225-226). -/
def buildRate (v : ℚ) (prepay : Bool) : ℚ :=
  buildBase v + (if prepay then 0.002 else 0)

/-- The deal row built by the `Add Build` handler (app.py lines 214-241). -/
def mkBuildDeal (d cust : String) (value : ℚ) (prepay : Bool) (cur : String) : Deal :=
  { date := d, category := "Build", customer := cust, contractValue := value,
    pairs := none, ratePct := pyRound 3 (buildRate value prepay * 100),
    commission := value * buildRate value prepay, currency := cur }

/-- DC Grid rate by type (app.py lines 263-268). -/
def dcRate (dcType : String) : ℚ :=
  if dcType = "Existing 3%" then 0.03
  else if dcType = "New 4%" then 0.04
  else 0.05

/-- Tier-table cell normalization (app.py lines 76-78):
`pd.to_numeric(..., errors="coerce").fillna(0.0)` turns an unparsable cell
(modelled as `none`) into `0`. -/
def normCell (c : Option ℚ) : ℚ := c.getD 0

/-- Embeds `normalize_tier_df` (app.py lines 56-80) after column renaming:
each raw row `(min threshold cell, bonus percent cell)` has both cells
coerced to numbers, unparsable cells becoming `0`. -/
def normalize_tier_df (raw : List (Option ℚ × Option ℚ)) : List (ℚ × ℚ) :=
  raw.map (fun r => (normCell r.1, normCell r.2))

/-- `tiers_norm.sort_values("Min Total Contract Value")` (app.py line 389):
stable ascending sort of the tier rows by threshold. -/
def sortTiers (ts : List (ℚ × ℚ)) : List (ℚ × ℚ) :=
  ts.mergeSort (fun a b => decide (a.1 ≤ b.1))

/-- The bonus-rate loop body (app.py lines 391-394): scan rows in order,
overwriting `bonus_rate` with `percent / 100` whenever the total value
reaches the row's threshold; the accumulator starts at `0`. -/
def tierScan (ts : List (ℚ × ℚ)) (v : ℚ) : ℚ :=
  ts.foldl (fun acc r => if v ≥ r.1 then r.2 / 100 else acc) 0

/-- The full bonus-rate computation (app.py lines 389-394): sort the
normalized tier rows by threshold, then scan. -/
def bonus_rate (ts : List (ℚ × ℚ)) (v : ℚ) : ℚ := tierScan (sortTiers ts) v

/-- The per-currency view of the saved deals (app.py lines 295 and 381). -/
def rowsFor (rows : List Deal) (c : String) : List Deal :=
  rows.filter (fun r => r.currency == c)

/-- `total_value` (app.py line 386): sum of contract values in the currency. -/
def total_value (rows : List Deal) (c : String) : ℚ :=
  ((rowsFor rows c).map Deal.contractValue).sum

/-- `total_comm` (app.py line 387): sum of commissions in the currency. -/
def total_comm (rows : List Deal) (c : String) : ℚ :=
  ((rowsFor rows c).map Deal.commission).sum

/-- `bonus` (app.py line 396): total contract value times the matched rate. -/
def bonusAmount (rows : List Deal) (c : String) (ts : List (ℚ × ℚ)) : ℚ :=
  total_value rows c * bonus_rate ts (total_value rows c)

/-- `total_incentive` (app.py line 397): commission total plus bonus. -/
def total_incentive (rows : List Deal) (c : String) (ts : List (ℚ × ℚ)) : ℚ :=
  total_comm rows c + bonusAmount rows c ts

/-- The `Delete ticked rows` handler (app.py lines 324-340).  `ticked` holds
the 1-based row numbers ticked in the currency-filtered view.  When nothing
is ticked the handler only warns and leaves the rows unchanged; otherwise it
rebuilds the saved list as the other-currency rows followed by the kept
currency rows. -/
def deleteTicked (rows : List Deal) (c : String) (ticked : List ℕ) : List Deal :=
  if ticked = [] then rows
  else
    let cur := rows.filter (fun r => r.currency == c)
    let other := rows.filter (fun r => r.currency != c)
    let keep := (cur.enum.filter (fun p => !(ticked.contains (p.1 + 1)))).map Prod.snd
    other ++ keep

/-- The `Clear ALL (currency)` handler (app.py lines 343-345). -/
def clearCurrency (rows : List Deal) (c : String) : List Deal :=
  rows.filter (fun r => r.currency != c)

/-- A Project-Manager Part A tier range row (app.py lines 428-434):
`From #`, `To #`, `Rate per project`. -/
structure RangeTier where
  fromN : ℤ
  toN : ℤ
  rate : ℚ

/-- `tiers.sort_values("From #")` (app.py line 439). -/
def sortRanges (ts : List RangeTier) : List RangeTier :=
  ts.mergeSort (fun a b => decide (a.fromN ≤ b.fromN))

/-- One range's project count (app.py lines 449-450):
`min(ontime, to) - from + 1`, clamped below at `0`. -/
def tierCount (ontime : ℤ) (t : RangeTier) : ℤ :=
  max (min ontime t.toN - t.fromN + 1) 0

/-- The Part A loop (app.py lines 437-453): ranges with `ontime < from` are
skipped, every other range contributes `tierCount * rate`. -/
def part_a_bonus (ontime : ℤ) (ts : List RangeTier) : ℚ :=
  (sortRanges ts).foldl
    (fun acc t => if ontime < t.fromN then acc else acc + (tierCount ontime t : ℚ) * t.rate) 0

/-- Boolean KPI sub-scores map to 0 or 100 (app.py lines 524, 532, 540, ...). -/
def boolScore (b : Bool) : ℚ := if b then 100 else 0

/-- Inputs of the Project Manager Part B KPI block (app.py lines 484-542). -/
structure PMInputs where
  milestonePct : ℚ
  delayDays : ℚ
  otdrFail : Bool
  noMajorDefect60 : Bool
  activationNoDispute : Bool
  noSlaPenalty60 : Bool
  noAuthorityPenalty : Bool
  noSafetyIncident : Bool
  weeklyReporting : Bool
  accurateTracking : Bool

/-- PM factor 1, on-time completion (app.py lines 501-503). -/
def pmOntimeScore (i : PMInputs) : ℚ :=
  (clamp_0_100 i.milestonePct + clamp_0_100 (100 - 5 * i.delayDays)) / 2

/-- PM factor 2, delivery quality (app.py lines 511-516): start at 100,
lose 50 for an OTDR failure, lose 50 for a major defect, clamp. -/
def pmQualityScore (i : PMInputs) : ℚ :=
  clamp_0_100 (100 - (if i.otdrFail then 50 else 0) - (if i.noMajorDefect60 then 0 else 50))

/-- PM factor 3, customer acceptance and activation (app.py line 524). -/
def pmCustScore (i : PMInputs) : ℚ :=
  (boolScore i.activationNoDispute + boolScore i.noSlaPenalty60) / 2

/-- PM factor 4, compliance and safety (app.py line 532). -/
def pmCompScore (i : PMInputs) : ℚ :=
  (boolScore i.noAuthorityPenalty + boolScore i.noSafetyIncident) / 2

/-- PM factor 5, internal coordination and reporting (app.py line 540). -/
def pmInternalScore (i : PMInputs) : ℚ :=
  (boolScore i.weeklyReporting + boolScore i.accurateTracking) / 2

/-- `KPI_total` for the Project Manager (app.py lines 544-550). -/
def pmKpiTotal (i : PMInputs) : ℚ :=
  pmOntimeScore i * 0.40 + pmQualityScore i * 0.20 + pmCustScore i * 0.15
    + pmCompScore i * 0.15 + pmInternalScore i * 0.10

/-- The PM factor weights (app.py lines 544-550), as listed. -/
def pmWeights : List ℚ := [0.40, 0.20, 0.15, 0.15, 0.10]

/-- The bonus-month curve shared by the PM and Delivery Team branches
(app.py lines 556-562 and 688-694): 1 month below a 0.5 KPI fraction, then
linear up to 6 months, clamped above at 6 and rounded to 2 decimals. -/
def bonus_months (kpi_score : ℚ) : ℚ :=
  pyRound 2 (min (if kpi_score < 0.5 then 1.0 else 1.0 + 5.0 * ((kpi_score - 0.5) / 0.5)) 6.0)

/-- Inputs of the Delivery Team KPI block (app.py lines 594-673). -/
structure DTInputs where
  milestonePct : ℚ
  delayDays : ℚ
  noMissedCritical : Bool
  costVariancePct : ℚ
  materialWastageOk : Bool
  voApprovedOnly : Bool
  otdrFail : Bool
  noMajorDefect60 : Bool
  reworkDueToTeam : Bool
  noSafetyIncident : Bool
  noAuthorityPenalty : Bool
  weeklyReporting : Bool
  accurateTracking : Bool

/-- DT factor 1, on-time delivery (app.py lines 612-616). -/
def dtOntimeScore (i : DTInputs) : ℚ :=
  (clamp_0_100 i.milestonePct + clamp_0_100 (100 - 5 * i.delayDays)
    + boolScore i.noMissedCritical) / 3

/-- DT variance sub-score (app.py lines 631-634). -/
def dtVarianceScore (i : DTInputs) : ℚ :=
  if i.costVariancePct ≤ 0 then 100 else clamp_0_100 (100 - 10 * i.costVariancePct)

/-- DT factor 2, budget and cost control (app.py lines 636-639). -/
def dtBudgetScore (i : DTInputs) : ℚ :=
  (dtVarianceScore i + boolScore i.materialWastageOk + boolScore i.voApprovedOnly) / 3

/-- DT factor 3, quality workmanship (app.py lines 648-655). -/
def dtQualityScore (i : DTInputs) : ℚ :=
  clamp_0_100 (100 - (if i.otdrFail then 40 else 0) - (if i.reworkDueToTeam then 40 else 0)
    - (if i.noMajorDefect60 then 0 else 20))

/-- DT factor 4, safety and compliance (app.py line 664). -/
def dtSafetyScore (i : DTInputs) : ℚ :=
  (boolScore i.noSafetyIncident + boolScore i.noAuthorityPenalty) / 2

/-- DT factor 5, reporting and coordination (app.py line 672). -/
def dtReportingScore (i : DTInputs) : ℚ :=
  (boolScore i.weeklyReporting + boolScore i.accurateTracking) / 2

/-- `KPI_total` for the Delivery Team (app.py lines 676-682). -/
def dtKpiTotal (i : DTInputs) : ℚ :=
  dtOntimeScore i * 0.35 + dtBudgetScore i * 0.25 + dtQualityScore i * 0.20
    + dtSafetyScore i * 0.15 + dtReportingScore i * 0.05

/-- The Delivery Team factor weights (app.py lines 676-682), as listed. -/
def dtWeights : List ℚ := [0.35, 0.25, 0.20, 0.15, 0.05]

/-- Pointwise continuity of a rational function, used to state the
spec's "no jump at the boundary" property for the Build rate. -/
def NoJumpAt (f : ℚ → ℚ) (a : ℚ) : Prop :=
  ∀ ε : ℚ, 0 < ε → ∃ δ : ℚ, 0 < δ ∧ ∀ v : ℚ, |v - a| < δ → |f v - f a| < ε

/-- The last row of a tier list whose threshold is at most `v`, if any:
this is the row whose rate survives the overwrite-scan of app.py
lines 391-394. -/
def lastMatch (v : ℚ) : List (ℚ × ℚ) → Option (ℚ × ℚ)
  | [] => none
  | r :: ts =>
    match lastMatch v ts with
    | some u => some u
    | none => if v ≥ r.1 then some r else none

/-- Concrete RM-currency deal used as a fixture for the deletion claim. -/
def dealRM : Deal :=
  { date := "2026-01-01", category := "IRU", customer := "a", contractValue := 1,
    pairs := some 1, ratePct := 3, commission := 1, currency := "RM" }

/-- Concrete USD-currency deal used as a fixture for the deletion claim. -/
def dealUSD : Deal :=
  { date := "2026-01-02", category := "IRU", customer := "b", contractValue := 2,
    pairs := some 1, ratePct := 3, commission := 2, currency := "USD" }

/-! ## Helper lemmas: Python rounding -/

theorem floor_le_pyRoundInt (x : ℚ) : ⌊x⌋ ≤ pyRoundInt x := by
  unfold pyRoundInt
  split_ifs <;> omega

theorem pyRoundInt_le_floor_add_one (x : ℚ) : pyRoundInt x ≤ ⌊x⌋ + 1 := by
  unfold pyRoundInt
  split_ifs <;> omega

theorem pyRoundInt_mono {x y : ℚ} (h : x ≤ y) : pyRoundInt x ≤ pyRoundInt y := by
  rcases lt_or_le ⌊x⌋ ⌊y⌋ with hf | hf
  · calc pyRoundInt x ≤ ⌊x⌋ + 1 := pyRoundInt_le_floor_add_one x
      _ ≤ ⌊y⌋ := hf
      _ ≤ pyRoundInt y := floor_le_pyRoundInt y
  · have hf' : ⌊x⌋ = ⌊y⌋ := le_antisymm (Int.floor_le_floor h) hf
    unfold pyRoundInt
    rw [hf']
    split_ifs <;> first | omega | linarith

theorem pyRoundInt_intCast (n : ℤ) : pyRoundInt (n : ℚ) = n := by
  unfold pyRoundInt
  rw [Int.floor_intCast]
  norm_num

theorem pyRound_mono (nd : ℕ) {x y : ℚ} (h : x ≤ y) : pyRound nd x ≤ pyRound nd y := by
  unfold pyRound
  have hp : (0:ℚ) < 10 ^ nd := by positivity
  refine (div_le_div_iff_of_pos_right hp).mpr ?_
  exact_mod_cast pyRoundInt_mono (mul_le_mul_of_nonneg_right h hp.le)

theorem pyRound_two_one : pyRound 2 1 = 1 := by
  have : ((1:ℚ) * 10 ^ 2) = ((100 : ℤ) : ℚ) := by norm_num
  rw [pyRound, this, pyRoundInt_intCast]
  norm_num

theorem pyRound_two_six : pyRound 2 6 = 6 := by
  have : ((6:ℚ) * 10 ^ 2) = ((600 : ℤ) : ℚ) := by norm_num
  rw [pyRound, this, pyRoundInt_intCast]
  norm_num

/-! ## Helper lemmas: the tier-lookup scan -/

theorem foldl_tierScan (v : ℚ) (ts : List (ℚ × ℚ)) (init : ℚ) :
    ts.foldl (fun acc r => if v ≥ r.1 then r.2 / 100 else acc) init
      = (lastMatch v ts).elim init (fun r => r.2 / 100) := by
  induction ts generalizing init with
  | nil => rfl
  | cons r ts ih =>
    simp only [List.foldl_cons, lastMatch]
    rw [ih]
    cases h : lastMatch v ts with
    | some u => simp
    | none =>
      by_cases hr : v ≥ r.1 <;> simp [hr]

theorem lastMatch_mem {v : ℚ} {ts : List (ℚ × ℚ)} {u : ℚ × ℚ}
    (h : lastMatch v ts = some u) : u ∈ ts ∧ u.1 ≤ v := by
  induction ts with
  | nil => simp [lastMatch] at h
  | cons r ts ih =>
    simp only [lastMatch] at h
    cases h' : lastMatch v ts with
    | some w =>
      rw [h'] at h
      simp only [Option.some.injEq] at h
      subst h
      obtain ⟨hm, hle⟩ := ih h'
      exact ⟨List.mem_cons_of_mem _ hm, hle⟩
    | none =>
      rw [h'] at h
      simp only at h
      by_cases hr : v ≥ r.1
      · rw [if_pos hr] at h
        simp only [Option.some.injEq] at h
        subst h
        exact ⟨List.mem_cons_self _ _, hr⟩
      · rw [if_neg hr] at h
        cases h

theorem lastMatch_eq_none {v : ℚ} {ts : List (ℚ × ℚ)} :
    lastMatch v ts = none ↔ ∀ u ∈ ts, v < u.1 := by
  induction ts with
  | nil => simp [lastMatch]
  | cons r ts ih =>
    simp only [lastMatch]
    cases h' : lastMatch v ts with
    | some w =>
      simp only [reduceCtorEq, false_iff]
      obtain ⟨hm, hle⟩ := lastMatch_mem h'
      intro hall
      exact absurd (hall w (List.mem_cons_of_mem _ hm)) (not_lt.mpr hle)
    | none =>
      rw [h'] at ih
      simp only []
      by_cases hr : v ≥ r.1
      · simp only [if_pos hr, reduceCtorEq, false_iff]
        intro hall
        exact absurd (hall r (List.mem_cons_self _ _)) (not_lt.mpr hr)
      · simp only [if_neg hr, true_iff]
        intro u hu
        rcases List.mem_cons.mp hu with h | h
        · subst h; exact lt_of_not_le hr
        · exact (ih.mp rfl) u h

theorem lastMatch_max_of_sorted {v : ℚ} {ts : List (ℚ × ℚ)} {u : ℚ × ℚ}
    (hs : ts.Pairwise (fun a b => a.1 ≤ b.1)) (h : lastMatch v ts = some u) :
    ∀ w ∈ ts, w.1 ≤ v → w.1 ≤ u.1 := by
  induction ts with
  | nil => simp [lastMatch] at h
  | cons r ts ih =>
    simp only [lastMatch] at h
    rw [List.pairwise_cons] at hs
    intro w hw hwle
    cases h' : lastMatch v ts with
    | some z =>
      rw [h'] at h
      simp only [Option.some.injEq] at h
      subst h
      rcases List.mem_cons.mp hw with hwr | hwm
      · subst hwr
        exact hs.1 z (lastMatch_mem h').1
      · exact ih hs.2 h' w hwm hwle
    | none =>
      rw [h'] at h
      simp only at h
      by_cases hr : v ≥ r.1
      · rw [if_pos hr] at h
        simp only [Option.some.injEq] at h
        subst h
        rcases List.mem_cons.mp hw with hwr | hwm
        · subst hwr; exact le_rfl
        · exact absurd hwle (not_le.mpr (lastMatch_eq_none.mp h' w hwm))
      · rw [if_neg hr] at h
        cases h

theorem sortTiers_perm (ts : List (ℚ × ℚ)) : (sortTiers ts).Perm ts :=
  List.mergeSort_perm ts _

theorem sortTiers_sorted (ts : List (ℚ × ℚ)) :
    (sortTiers ts).Pairwise (fun a b => a.1 ≤ b.1) := by
  have h := @List.sorted_mergeSort (ℚ × ℚ) (fun a b => decide (a.1 ≤ b.1))
    (by intro a b c hab hbc
        simp only [decide_eq_true_eq] at *
        exact le_trans hab hbc)
    (by intro a b
        simp only [Bool.or_eq_true, decide_eq_true_eq]
        exact le_total a.1 b.1)
    ts
  exact h.imp (by intro a b hab; exact of_decide_eq_true hab)

theorem bonus_rate_eq_lastMatch (ts : List (ℚ × ℚ)) (v : ℚ) :
    bonus_rate ts v = (lastMatch v (sortTiers ts)).elim 0 (fun r => r.2 / 100) := by
  unfold bonus_rate tierScan
  exact foldl_tierScan v (sortTiers ts) 0

theorem bonus_rate_eq_zero {ts : List (ℚ × ℚ)} {v : ℚ}
    (h : ∀ u ∈ ts, v < u.1) : bonus_rate ts v = 0 := by
  rw [bonus_rate_eq_lastMatch]
  have : lastMatch v (sortTiers ts) = none :=
    lastMatch_eq_none.mpr (fun u hu => h u ((sortTiers_perm ts).mem_iff.mp hu))
  rw [this]
  rfl

theorem bonus_rate_eq_max {ts : List (ℚ × ℚ)} {v : ℚ} {t : ℚ × ℚ}
    (hnd : (ts.map Prod.fst).Nodup) (ht : t ∈ ts) (hle : t.1 ≤ v)
    (hmax : ∀ u ∈ ts, u.1 ≤ v → u.1 ≤ t.1) : bonus_rate ts v = t.2 / 100 := by
  rw [bonus_rate_eq_lastMatch]
  cases h : lastMatch v (sortTiers ts) with
  | none =>
    exfalso
    exact absurd hle
      (not_le.mpr (lastMatch_eq_none.mp h t ((sortTiers_perm ts).mem_iff.mpr ht)))
  | some u =>
    obtain ⟨humem, hule⟩ := lastMatch_mem h
    have humem' : u ∈ ts := (sortTiers_perm ts).mem_iff.mp humem
    have h1 : t.1 ≤ u.1 :=
      lastMatch_max_of_sorted (sortTiers_sorted ts) h t
        ((sortTiers_perm ts).mem_iff.mpr ht) hle
    have h2 : u.1 ≤ t.1 := hmax u humem' hule
    have : u = t := List.inj_on_of_nodup_map hnd humem' ht (le_antisymm h2 h1)
    rw [this]
    rfl

theorem exists_max_fst {l : List (ℚ × ℚ)} (h : l ≠ []) :
    ∃ m ∈ l, ∀ u ∈ l, u.1 ≤ m.1 := by
  induction l with
  | nil => exact absurd rfl h
  | cons r l ih =>
    cases l with
    | nil =>
      refine ⟨r, List.mem_cons_self _ _, ?_⟩
      intro u hu
      rcases List.mem_cons.mp hu with h | h
      · subst h; exact le_rfl
      · simp at h
    | cons s l' =>
      obtain ⟨m, hm, hmax⟩ := ih (by simp)
      rcases le_total r.1 m.1 with hrm | hrm
      · refine ⟨m, List.mem_cons_of_mem _ hm, ?_⟩
        intro u hu
        rcases List.mem_cons.mp hu with h | h
        · subst h; exact hrm
        · exact hmax u h
      · refine ⟨r, List.mem_cons_self _ _, ?_⟩
        intro u hu
        rcases List.mem_cons.mp hu with h | h
        · subst h; exact le_rfl
        · exact le_trans (hmax u h) hrm

/-- If some tier matches, there is a tier matching `v` whose threshold is
maximal among the matching tiers. -/
theorem exists_max_match {ts : List (ℚ × ℚ)} {t : ℚ × ℚ} {v : ℚ}
    (ht : t ∈ ts) (hle : t.1 ≤ v) :
    ∃ m ∈ ts, m.1 ≤ v ∧ ∀ u ∈ ts, u.1 ≤ v → u.1 ≤ m.1 := by
  have hne : ts.filter (fun u => decide (u.1 ≤ v)) ≠ [] := by
    intro hnil
    have : t ∈ ts.filter (fun u => decide (u.1 ≤ v)) :=
      List.mem_filter.mpr ⟨ht, decide_eq_true hle⟩
    rw [hnil] at this
    simp at this
  obtain ⟨m, hm, hmax⟩ := exists_max_fst hne
  obtain ⟨hmem, hmle⟩ := List.mem_filter.mp hm
  refine ⟨m, hmem, of_decide_eq_true hmle, ?_⟩
  intro u hu hule
  exact hmax u (List.mem_filter.mpr ⟨hu, decide_eq_true hule⟩)

/-! ## Helper lemmas: the Part A range loop -/

theorem foldl_partA (ontime : ℤ) (ts : List RangeTier) (init : ℚ) :
    ts.foldl
        (fun acc t => if ontime < t.fromN then acc else acc + (tierCount ontime t : ℚ) * t.rate)
        init
      = init
        + (ts.map
            (fun t => if ontime < t.fromN then 0 else (tierCount ontime t : ℚ) * t.rate)).sum := by
  induction ts generalizing init with
  | nil => simp
  | cons t ts ih =>
    simp only [List.foldl_cons, List.map_cons, List.sum_cons]
    rw [ih]
    split_ifs with h <;> ring

theorem sum_if_filter_ranges (ontime : ℤ) (l : List RangeTier) :
    (l.map (fun t => if ontime < t.fromN then 0 else (tierCount ontime t : ℚ) * t.rate)).sum
      = ((l.filter (fun t => decide (t.fromN ≤ ontime))).map
          (fun t => (tierCount ontime t : ℚ) * t.rate)).sum := by
  induction l with
  | nil => rfl
  | cons t l ih =>
    by_cases h : ontime < t.fromN
    · have hd : (decide (t.fromN ≤ ontime)) = false := decide_eq_false (not_le.mpr h)
      simp [h, hd, ih]
    · have hd : (decide (t.fromN ≤ ontime)) = true := decide_eq_true (not_lt.mp h)
      simp [h, hd, ih]

theorem part_a_eq_sum (ontime : ℤ) (ts : List RangeTier) :
    part_a_bonus ontime ts
      = ((ts.filter (fun t => decide (t.fromN ≤ ontime))).map
          (fun t => (tierCount ontime t : ℚ) * t.rate)).sum := by
  unfold part_a_bonus
  rw [foldl_partA, zero_add]
  have hperm : (sortRanges ts).Perm ts := List.mergeSort_perm ts _
  rw [(hperm.map
    (fun t => if ontime < t.fromN then 0 else (tierCount ontime t : ℚ) * t.rate)).sum_eq]
  exact sum_if_filter_ranges ontime ts

/-! ## Helper lemmas: the bonus-month curve -/

theorem bonus_months_mono {k₁ k₂ : ℚ} (h : k₁ ≤ k₂) :
    bonus_months k₁ ≤ bonus_months k₂ := by
  unfold bonus_months
  apply pyRound_mono
  apply min_le_min _ le_rfl
  split_ifs with h1 h2
  · exact le_rfl
  · have h2' : (0.5:ℚ) ≤ k₂ := not_lt.mp h2
    have e : (1.0:ℚ) + 5.0 * ((k₂ - 0.5) / 0.5) = 10 * k₂ - 4 := by ring
    rw [e]
    linarith
  · have h1' : (0.5:ℚ) ≤ k₁ := not_lt.mp h1
    linarith
  · have e₁ : (1.0:ℚ) + 5.0 * ((k₁ - 0.5) / 0.5) = 10 * k₁ - 4 := by ring
    have e₂ : (1.0:ℚ) + 5.0 * ((k₂ - 0.5) / 0.5) = 10 * k₂ - 4 := by ring
    rw [e₁, e₂]
    linarith

theorem bonus_months_bounds (k : ℚ) : 1 ≤ bonus_months k ∧ bonus_months k ≤ 6 := by
  unfold bonus_months
  constructor
  · refine le_trans (le_of_eq pyRound_two_one.symm) (pyRound_mono 2 ?_)
    apply le_min
    · split_ifs with h
      · norm_num
      · have h' : (0.5:ℚ) ≤ k := not_lt.mp h
        have e : (1.0:ℚ) + 5.0 * ((k - 0.5) / 0.5) = 10 * k - 4 := by ring
        rw [e]
        linarith
    · norm_num
  · refine le_trans (pyRound_mono 2 ?_) (le_of_eq pyRound_two_six)
    exact le_trans (min_le_right _ _) (by norm_num)

/-! ## Helper lemmas: clamps and KPI bounds -/

theorem clamp_0_100_nonneg (x : ℚ) : 0 ≤ clamp_0_100 x := le_max_left 0 _

theorem clamp_0_100_le (x : ℚ) : clamp_0_100 x ≤ 100 :=
  max_le (by norm_num) (min_le_left _ _)

theorem boolScore_nonneg (b : Bool) : 0 ≤ boolScore b := by
  cases b <;> norm_num [boolScore]

theorem boolScore_le (b : Bool) : boolScore b ≤ 100 := by
  cases b <;> norm_num [boolScore]

theorem pmKpiTotal_bounds (i : PMInputs) : 0 ≤ pmKpiTotal i ∧ pmKpiTotal i ≤ 100 := by
  have h1a := clamp_0_100_nonneg i.milestonePct
  have h1b := clamp_0_100_le i.milestonePct
  have h2a := clamp_0_100_nonneg (100 - 5 * i.delayDays)
  have h2b := clamp_0_100_le (100 - 5 * i.delayDays)
  have h3a := clamp_0_100_nonneg
    (100 - (if i.otdrFail then (50:ℚ) else 0) - (if i.noMajorDefect60 then 0 else 50))
  have h3b := clamp_0_100_le
    (100 - (if i.otdrFail then (50:ℚ) else 0) - (if i.noMajorDefect60 then 0 else 50))
  have h4a := boolScore_nonneg i.activationNoDispute
  have h4b := boolScore_le i.activationNoDispute
  have h5a := boolScore_nonneg i.noSlaPenalty60
  have h5b := boolScore_le i.noSlaPenalty60
  have h6a := boolScore_nonneg i.noAuthorityPenalty
  have h6b := boolScore_le i.noAuthorityPenalty
  have h7a := boolScore_nonneg i.noSafetyIncident
  have h7b := boolScore_le i.noSafetyIncident
  have h8a := boolScore_nonneg i.weeklyReporting
  have h8b := boolScore_le i.weeklyReporting
  have h9a := boolScore_nonneg i.accurateTracking
  have h9b := boolScore_le i.accurateTracking
  unfold pmKpiTotal pmOntimeScore pmQualityScore pmCustScore pmCompScore pmInternalScore
  constructor <;> linarith

theorem dtVarianceScore_bounds (i : DTInputs) :
    0 ≤ dtVarianceScore i ∧ dtVarianceScore i ≤ 100 := by
  unfold dtVarianceScore
  split_ifs with h
  · norm_num
  · exact ⟨clamp_0_100_nonneg _, clamp_0_100_le _⟩

theorem dtKpiTotal_bounds (i : DTInputs) : 0 ≤ dtKpiTotal i ∧ dtKpiTotal i ≤ 100 := by
  have h1a := clamp_0_100_nonneg i.milestonePct
  have h1b := clamp_0_100_le i.milestonePct
  have h2a := clamp_0_100_nonneg (100 - 5 * i.delayDays)
  have h2b := clamp_0_100_le (100 - 5 * i.delayDays)
  have h3a := boolScore_nonneg i.noMissedCritical
  have h3b := boolScore_le i.noMissedCritical
  have h4 := dtVarianceScore_bounds i
  have h5a := boolScore_nonneg i.materialWastageOk
  have h5b := boolScore_le i.materialWastageOk
  have h6a := boolScore_nonneg i.voApprovedOnly
  have h6b := boolScore_le i.voApprovedOnly
  have h7a := clamp_0_100_nonneg
    (100 - (if i.otdrFail then (40:ℚ) else 0) - (if i.reworkDueToTeam then 40 else 0)
      - (if i.noMajorDefect60 then 0 else 20))
  have h7b := clamp_0_100_le
    (100 - (if i.otdrFail then (40:ℚ) else 0) - (if i.reworkDueToTeam then 40 else 0)
      - (if i.noMajorDefect60 then 0 else 20))
  have h8a := boolScore_nonneg i.noSafetyIncident
  have h8b := boolScore_le i.noSafetyIncident
  have h9a := boolScore_nonneg i.noAuthorityPenalty
  have h9b := boolScore_le i.noAuthorityPenalty
  have h10a := boolScore_nonneg i.weeklyReporting
  have h10b := boolScore_le i.weeklyReporting
  have h11a := boolScore_nonneg i.accurateTracking
  have h11b := boolScore_le i.accurateTracking
  obtain ⟨h4a, h4b⟩ := h4
  unfold dtKpiTotal dtOntimeScore dtBudgetScore dtQualityScore dtSafetyScore dtReportingScore
  constructor <;> linarith

/-! ## Helper lemmas: the Build-to-Own rate -/

theorem buildBase_at_5M : buildBase 5000000 = 0.015 := by
  unfold buildBase clamp_0_1
  norm_num

theorem buildBase_at_15M : buildBase 15000000 = 0.03 := by
  unfold buildBase clamp_0_1
  norm_num

theorem buildBase_below {v : ℚ} (h : v < 5000000) : buildBase v = 0.012 := by
  unfold buildBase
  rw [if_pos h]

theorem buildBase_between {v : ℚ} (h1 : 5000000 ≤ v) (h2 : v ≤ 15000000) :
    buildBase v = 0.015 + 0.015 * ((v - 5000000) / 10000000) := by
  unfold buildBase
  rw [if_neg (not_lt.mpr h1), if_pos h2]
  have hcl : clamp_0_1 ((v - 5000000) / 10000000) = (v - 5000000) / 10000000 := by
    unfold clamp_0_1
    have h0 : 0 ≤ (v - 5000000) / 10000000 := div_nonneg (by linarith) (by norm_num)
    have hle : (v - 5000000) / 10000000 ≤ 1 := by
      rw [div_le_one (by norm_num)]
      linarith
    rw [min_eq_right hle, max_eq_right h0]
  rw [hcl]
  norm_num

theorem buildBase_above {v : ℚ} (h : 15000000 < v) : buildBase v = 0.03 := by
  unfold buildBase
  rw [if_neg (not_lt.mpr (by linarith)), if_neg (not_le.mpr h)]

theorem noJumpAt_15M : NoJumpAt buildBase 15000000 := by
  intro ε hε
  refine ⟨min (100000000 * ε) 1, lt_min (by positivity) one_pos, ?_⟩
  intro v hv
  rw [buildBase_at_15M]
  have hδ1 : |v - 15000000| < 1 := lt_of_lt_of_le hv (min_le_right _ _)
  have hδ2 : |v - 15000000| < 100000000 * ε := lt_of_lt_of_le hv (min_le_left _ _)
  rw [abs_lt] at hδ1 hδ2
  rcases le_or_lt v 15000000 with hle | hgt
  · have h5 : (5000000:ℚ) ≤ v := by linarith [hδ1.1]
    rw [buildBase_between h5 hle, abs_lt]
    have e : (0.015:ℚ) + 0.015 * ((v - 5000000) / 10000000) - 0.03
        = (3 / 2000000000) * (v - 15000000) := by ring
    rw [e]
    constructor
    · linarith [hδ2.1]
    · linarith
  · rw [buildBase_above hgt]
    simpa using hε

/-! ## Helper lemmas: row deletion -/

theorem enum_filter_map_sublist {α : Type} (l : List α) (p : ℕ × α → Bool) :
    (((l.enum.filter p).map Prod.snd)).Sublist l := by
  have h1 : (l.enum.filter p).Sublist l.enum := List.filter_sublist _
  have h2 := h1.map Prod.snd
  rwa [List.enum_map_snd] at h2

theorem deleteTicked_eq (rows : List Deal) (c : String) (ticked : List ℕ)
    (h : ticked ≠ []) :
    deleteTicked rows c ticked
      = rows.filter (fun r => r.currency != c)
        ++ (((rows.filter (fun r => r.currency == c)).enum.filter
              (fun p => !(ticked.contains (p.1 + 1)))).map Prod.snd) := by
  unfold deleteTicked
  rw [if_neg h]

theorem bonus_months_half : bonus_months (1/2) = 1 := by
  unfold bonus_months
  have h : ¬ ((1/2 : ℚ) < 0.5) := by norm_num
  rw [if_neg h]
  have e : (1.0:ℚ) + 5.0 * ((1/2 - 0.5)/0.5) = 1 := by norm_num
  rw [e]
  have m : min (1:ℚ) 6.0 = 1 := min_eq_left (by norm_num)
  rw [m, pyRound_two_one]

theorem bonus_months_one : bonus_months 1 = 6 := by
  unfold bonus_months
  have h : ¬ ((1 : ℚ) < 0.5) := by norm_num
  rw [if_neg h]
  have e : (1.0:ℚ) + 5.0 * (((1:ℚ) - 0.5)/0.5) = 6 := by norm_num
  rw [e]
  have m : min (6:ℚ) 6.0 = 6 := min_eq_left (by norm_num)
  rw [m, pyRound_two_six]

/-! ## Claim theorems -/

/-- C1 (counterexample): the Build-to-Own base rate is NOT free of jumps at
both tier boundaries.  Below 5,000,000 the base rate is 0.012 (witnessed at
4,999,999) while at 5,000,000 it is 0.015, so the function has a jump of
0.003 at the 5,000,000 boundary and is not continuous there. -/
theorem build_rate_jump_counterexample :
    buildBase 4999999 = 0.012 ∧ buildBase 5000000 = 0.015
      ∧ ¬ NoJumpAt buildBase 5000000 := by
  refine ⟨buildBase_below (by norm_num), buildBase_at_5M, ?_⟩
  intro h
  obtain ⟨δ, hδ, hall⟩ := h (3/1000) (by norm_num)
  have hmin : (0:ℚ) < min δ 1 := lt_min hδ one_pos
  have h1 : |5000000 - min δ 1 / 2 - 5000000| < δ := by
    have e : (5000000:ℚ) - min δ 1 / 2 - 5000000 = -(min δ 1 / 2) := by ring
    rw [e, abs_neg, abs_of_pos (by positivity)]
    have := min_le_left δ 1
    linarith
  have h2 := hall _ h1
  rw [buildBase_below (show (5000000:ℚ) - min δ 1 / 2 < 5000000 by linarith),
    buildBase_at_5M] at h2
  have e : (0.012:ℚ) - 0.015 = -(3/1000) := by norm_num
  rw [e, abs_neg, abs_of_pos (by norm_num)] at h2
  exact absurd h2 (lt_irrefl _)

/-- C1 (amended): the Build-to-Own base rate equals 0.015 at contract value
exactly 5,000,000 and 0.03 at exactly 15,000,000, and has no jump at the
15,000,000 boundary; but for every value below 5,000,000 the base rate is
0.012, so at the 5,000,000 boundary the rate jumps by 0.003. -/
theorem build_rate_boundaries (v : ℚ) (hv : v < 5000000) :
    buildBase 5000000 = 0.015 ∧ buildBase 15000000 = 0.03
      ∧ NoJumpAt buildBase 15000000
      ∧ buildBase v = 0.012
      ∧ buildBase 5000000 - buildBase v = 0.003 := by
  refine ⟨buildBase_at_5M, buildBase_at_15M, noJumpAt_15M, buildBase_below hv, ?_⟩
  rw [buildBase_at_5M, buildBase_below hv]
  norm_num

/-- Witness for C1 (amended), at contract value 4,999,999. -/
theorem build_rate_boundaries_witness :
    (4999999:ℚ) < 5000000 ∧ buildBase 4999999 = 0.012 :=
  ⟨by norm_num, (build_rate_boundaries 4999999 (by norm_num)).2.2.2.1⟩

/-- C2: for every tier table with pairwise-distinct thresholds and every
total value `v ≥ 0`, the bonus-tier lookup returns 0 on the empty table,
returns 0 when `v` is below every threshold, returns the rate of the row
with the largest threshold `≤ v` (its percent divided by 100, as the scan
loop stores it) whenever a row matches, and is unchanged under any
reordering of the rows. -/
theorem tier_lookup_correct (ts : List (ℚ × ℚ)) (v : ℚ) (hv : 0 ≤ v)
    (hnd : (ts.map Prod.fst).Nodup) :
    (ts = [] → bonus_rate ts v = 0)
      ∧ ((∀ u ∈ ts, v < u.1) → bonus_rate ts v = 0)
      ∧ (∀ t ∈ ts, t.1 ≤ v → (∀ u ∈ ts, u.1 ≤ v → u.1 ≤ t.1) →
          bonus_rate ts v = t.2 / 100)
      ∧ (∀ ts' : List (ℚ × ℚ), ts'.Perm ts → bonus_rate ts' v = bonus_rate ts v) := by
  refine ⟨?_, ?_, ?_, ?_⟩
  · intro h
    subst h
    exact bonus_rate_eq_zero (by simp)
  · exact bonus_rate_eq_zero
  · intro t ht hle hmax
    exact bonus_rate_eq_max hnd ht hle hmax
  · intro ts' hperm
    by_cases hm : ∃ t ∈ ts, t.1 ≤ v
    · obtain ⟨t, ht, htle⟩ := hm
      obtain ⟨m, hmem, hmle, hmax⟩ := exists_max_match ht htle
      have hnd' : (ts'.map Prod.fst).Nodup := ((hperm.map Prod.fst).nodup_iff).mpr hnd
      rw [bonus_rate_eq_max hnd hmem hmle hmax,
        bonus_rate_eq_max hnd' (hperm.mem_iff.mpr hmem) hmle
          (fun u hu hule => hmax u (hperm.mem_iff.mp hu) hule)]
    · push_neg at hm
      rw [bonus_rate_eq_zero (fun u hu => hm u hu),
        bonus_rate_eq_zero (fun u hu => hm u (hperm.mem_iff.mp hu))]

/-- Witness for C2: on the unsorted two-row table [(3, 50), (1, 20)] and
total value 2, the matched row is the one with threshold 1. -/
theorem tier_lookup_correct_witness :
    (0:ℚ) ≤ 2 ∧ ([((3:ℚ),(50:ℚ)), (1, 20)].map Prod.fst).Nodup
      ∧ bonus_rate [((3:ℚ),(50:ℚ)), (1, 20)] 2 = 20 / 100 :=
  ⟨by norm_num, by decide,
    (tier_lookup_correct [((3:ℚ),(50:ℚ)), (1, 20)] 2 (by norm_num) (by decide)).2.2.1
      (1, 20) (by decide) (by decide) (by decide)⟩

/-- C3: the bonus-month curve shared by the Project Manager and Delivery
Team branches takes the value 1.00 at KPI fraction 0.5 and 6.00 at 1.0, is
monotone non-decreasing on [0, 1], and its value always lies in
[1.00, 6.00] there. -/
theorem kpi_to_bonus_months_curve (k₁ k₂ : ℚ) (h0 : 0 ≤ k₁) (h12 : k₁ ≤ k₂)
    (h1 : k₂ ≤ 1) :
    bonus_months (1/2) = 1 ∧ bonus_months 1 = 6
      ∧ bonus_months k₁ ≤ bonus_months k₂
      ∧ 1 ≤ bonus_months k₁ ∧ bonus_months k₁ ≤ 6 :=
  ⟨bonus_months_half, bonus_months_one, bonus_months_mono h12,
    (bonus_months_bounds k₁).1, (bonus_months_bounds k₁).2⟩

/-- Witness for C3, with KPI fractions 0 and 1. -/
theorem kpi_to_bonus_months_curve_witness :
    (0:ℚ) ≤ 0 ∧ (0:ℚ) ≤ 1 ∧ (1:ℚ) ≤ 1
      ∧ bonus_months 0 ≤ bonus_months 1 :=
  ⟨le_rfl, by norm_num, le_rfl,
    (kpi_to_bonus_months_curve 0 1 le_rfl (by norm_num) le_rfl).2.2.1⟩

/-- C4: Manager Part A is a graduated tier payout: for every on-time count
and every list of range tiers, the payout is the sum, over the ranges whose
lower bound the count reaches, of the clamped in-range project count times
the per-project rate; with ranges [1,3]@500, [4,6]@700, [7,9999]@900 and
count 5 the payout is 3·500 + 2·700 = 2900. -/
theorem part_a_graduated (ontime : ℤ) (ts : List RangeTier) (h : 0 ≤ ontime) :
    part_a_bonus ontime ts
        = ((ts.filter (fun t => decide (t.fromN ≤ ontime))).map
            (fun t => ((max (min ontime t.toN - t.fromN + 1) 0 : ℤ) : ℚ) * t.rate)).sum
      ∧ part_a_bonus 5 [⟨1,3,500⟩, ⟨4,6,700⟩, ⟨7,9999,900⟩] = 3 * 500 + 2 * 700 := by
  constructor
  · exact part_a_eq_sum ontime ts
  · rw [part_a_eq_sum]
    norm_num [List.filter, tierCount]

/-- Witness for C4, at on-time count 5 with the three default ranges. -/
theorem part_a_graduated_witness :
    (0:ℤ) ≤ 5
      ∧ part_a_bonus 5 [⟨1,3,500⟩, ⟨4,6,700⟩, ⟨7,9999,900⟩] = 3 * 500 + 2 * 700 :=
  ⟨by decide, (part_a_graduated 5 [⟨1,3,500⟩, ⟨4,6,700⟩, ⟨7,9999,900⟩] (by decide)).2⟩

/-- C5: for a non-empty per-currency deal list, the sales totals decompose
as the spec states: `total_value` is the sum of the contract values, the
matched tier percent is divided by 100 to give the bonus rate, the bonus is
`total_value` times that rate, and the total incentive is the commission
sum plus the bonus. -/
theorem sales_totals_correct (rows : List Deal) (c : String) (ts : List (ℚ × ℚ))
    (t : ℚ × ℚ) (hne : rowsFor rows c ≠ [])
    (hnd : (ts.map Prod.fst).Nodup) (ht : t ∈ ts)
    (hle : t.1 ≤ total_value rows c)
    (hmax : ∀ u ∈ ts, u.1 ≤ total_value rows c → u.1 ≤ t.1) :
    total_value rows c = ((rowsFor rows c).map Deal.contractValue).sum
      ∧ bonus_rate ts (total_value rows c) = t.2 / 100
      ∧ bonusAmount rows c ts = total_value rows c * bonus_rate ts (total_value rows c)
      ∧ total_incentive rows c ts
          = ((rowsFor rows c).map Deal.commission).sum + bonusAmount rows c ts :=
  ⟨rfl, bonus_rate_eq_max hnd ht hle hmax, rfl, rfl⟩

/-- Witness for C5: one RM deal of value 1 against the single tier (0, 20%). -/
theorem sales_totals_correct_witness :
    rowsFor [dealRM] "RM" ≠ []
      ∧ bonus_rate [((0:ℚ),(20:ℚ))] (total_value [dealRM] "RM") = 20 / 100 := by
  have htv : total_value [dealRM] "RM" = 1 := by norm_num [total_value, rowsFor, dealRM]
  refine ⟨by decide,
    (sales_totals_correct [dealRM] "RM" [((0:ℚ),(20:ℚ))] (0, 20)
      (by decide) (by decide) (by decide) ?_ ?_).2.1⟩
  · rw [htv]
    norm_num
  · intro u hu _
    rw [List.mem_singleton] at hu
    subst hu
    norm_num

/-- C6: the per-currency totals and bonus depend only on the deals of that
currency: they are unchanged by appending a deal of a different currency,
and they agree on any two deal lists whose currency-filtered views agree. -/
theorem currency_partition (rows rows₁ rows₂ : List Deal) (d : Deal) (c : String)
    (ts : List (ℚ × ℚ)) (hd : d.currency ≠ c)
    (h12 : rowsFor rows₁ c = rowsFor rows₂ c) :
    total_value (rows ++ [d]) c = total_value rows c
      ∧ total_comm (rows ++ [d]) c = total_comm rows c
      ∧ bonusAmount (rows ++ [d]) c ts = bonusAmount rows c ts
      ∧ total_incentive (rows ++ [d]) c ts = total_incentive rows c ts
      ∧ total_value rows₁ c = total_value rows₂ c
      ∧ total_comm rows₁ c = total_comm rows₂ c
      ∧ bonusAmount rows₁ c ts = bonusAmount rows₂ c ts
      ∧ total_incentive rows₁ c ts = total_incentive rows₂ c ts := by
  have hfilter : rowsFor (rows ++ [d]) c = rowsFor rows c := by
    unfold rowsFor
    rw [List.filter_append]
    have hnil : [d].filter (fun r => r.currency == c) = [] := by
      simp [hd]
    rw [hnil, List.append_nil]
  refine ⟨?_, ?_, ?_, ?_, ?_, ?_, ?_, ?_⟩ <;>
    simp [total_value, total_comm, bonusAmount, total_incentive, rowsFor] at * <;>
    simp [hfilter, h12]

/-- Witness for C6: appending a USD deal leaves the RM total unchanged. -/
theorem currency_partition_witness :
    dealUSD.currency ≠ "RM"
      ∧ total_value ([] ++ [dealUSD]) "RM" = total_value [] "RM" :=
  ⟨by decide, (currency_partition [] [] [] dealUSD "RM" [] (by decide) rfl).1⟩

theorem bonus_rate_of_zero_rates {ts : List (ℚ × ℚ)} {v : ℚ}
    (h : ∀ u ∈ ts, u.2 = 0) : bonus_rate ts v = 0 := by
  rw [bonus_rate_eq_lastMatch]
  cases hm : lastMatch v (sortTiers ts) with
  | none => rfl
  | some u =>
    have hmem : u ∈ ts := (sortTiers_perm ts).mem_iff.mp (lastMatch_mem hm).1
    simp [Option.elim, h u hmem]

/-- C7: on a degenerate tier table — empty, or with every cell failing to
parse as a number (each normalized to 0) — the bonus rate and bonus amount
are 0, and the computation still completes, the total incentive degrading
to the commission total. -/
theorem degenerate_tier_table (raw : List (Option ℚ × Option ℚ)) (rows : List Deal)
    (c : String) (hall : ∀ r ∈ raw, r.1 = none ∧ r.2 = none) :
    bonus_rate (normalize_tier_df raw) (total_value rows c) = 0
      ∧ bonusAmount rows c (normalize_tier_df raw) = 0
      ∧ total_incentive rows c (normalize_tier_df raw) = total_comm rows c
      ∧ bonus_rate [] (total_value rows c) = 0
      ∧ bonusAmount rows c [] = 0
      ∧ total_incentive rows c [] = total_comm rows c := by
  have hz : ∀ u ∈ normalize_tier_df raw, u.2 = 0 := by
    intro u hu
    obtain ⟨r, hr, hru⟩ := List.mem_map.mp hu
    rw [← hru]
    simp [normCell, (hall r hr).2]
  have h1 : bonus_rate (normalize_tier_df raw) (total_value rows c) = 0 :=
    bonus_rate_of_zero_rates hz
  have h4 : bonus_rate [] (total_value rows c) = 0 := bonus_rate_eq_zero (by simp)
  refine ⟨h1, ?_, ?_, h4, ?_, ?_⟩
  · unfold bonusAmount
    rw [h1, mul_zero]
  · unfold total_incentive bonusAmount
    rw [h1, mul_zero, add_zero]
  · unfold bonusAmount
    rw [h4, mul_zero]
  · unfold total_incentive bonusAmount
    rw [h4, mul_zero, add_zero]

/-- Witness for C7: a one-row tier table with both cells unparsable. -/
theorem degenerate_tier_table_witness :
    (∀ r ∈ [((none : Option ℚ), (none : Option ℚ))], r.1 = none ∧ r.2 = none)
      ∧ bonus_rate (normalize_tier_df [(none, none)]) (total_value [dealRM] "RM") = 0 :=
  ⟨by decide, (degenerate_tier_table [(none, none)] [dealRM] "RM" (by decide)).1⟩

/-- C8: an added IRU deal has commission equal to
`contractValue × (0.03 + 0.001 × max(pairs − 1, 0))`, and the handler
appends exactly that deal to the saved rows. -/
theorem iru_commission_formula (dte cust : String) (value : ℚ) (pairs : ℤ)
    (cur : String) (rows : List Deal) (hv : 0 ≤ value) (hp : 0 ≤ pairs) :
    (mkIRUDeal dte cust value pairs cur).commission
        = value * (0.03 + 0.001 * ((max (pairs - 1) 0 : ℤ) : ℚ))
      ∧ add_iru rows dte cust value pairs cur
          = rows ++ [mkIRUDeal dte cust value pairs cur] := by
  constructor
  · simp only [mkIRUDeal, iruRate]
    ring
  · rfl

/-- Witness for C8: contract value 2 with 3 pairs gives commission 0.064. -/
theorem iru_commission_formula_witness :
    (0:ℚ) ≤ 2 ∧ (0:ℤ) ≤ 3
      ∧ (mkIRUDeal "d" "c" 2 3 "USD").commission
          = 2 * (0.03 + 0.001 * ((max ((3:ℤ) - 1) 0 : ℤ) : ℚ)) :=
  ⟨by norm_num, by decide,
    (iru_commission_formula "d" "c" 2 3 "USD" [] (by norm_num) (by decide)).1⟩

/-- C9: for every set of inputs, the weighted KPI totals of the Project
Manager and Delivery Team engines lie in [0, 100], each weight vector sums
to 1, and the derived bonus months lie in [1.00, 6.00]. -/
theorem kpi_totals_bounded (i : PMInputs) (j : DTInputs) :
    (0 ≤ pmKpiTotal i ∧ pmKpiTotal i ≤ 100)
      ∧ (0 ≤ dtKpiTotal j ∧ dtKpiTotal j ≤ 100)
      ∧ pmWeights.sum = 1 ∧ dtWeights.sum = 1
      ∧ (1 ≤ bonus_months (pmKpiTotal i / 100) ∧ bonus_months (pmKpiTotal i / 100) ≤ 6)
      ∧ (1 ≤ bonus_months (dtKpiTotal j / 100) ∧ bonus_months (dtKpiTotal j / 100) ≤ 6) :=
  ⟨pmKpiTotal_bounds i, dtKpiTotal_bounds j,
    by norm_num [pmWeights], by norm_num [dtWeights],
    bonus_months_bounds _, bonus_months_bounds _⟩

/-- C10: deleting ticked rows under currency `c` preserves every
other-currency deal (their filtered view is unchanged), keeps the surviving
`c`-deals in relative order (a sublist of the previous `c`-view), and
rebuilds the list as the other-currency deals followed by the kept
`c`-deals — so the global interleaving is not preserved, as the concrete
two-deal example shows: nothing is deleted, yet the order flips. -/
theorem delete_ticked_frame (rows : List Deal) (c : String) (ticked : List ℕ)
    (h : ticked ≠ []) :
    ((deleteTicked rows c ticked).filter (fun r => r.currency != c)
        = rows.filter (fun r => r.currency != c))
      ∧ (((deleteTicked rows c ticked).filter (fun r => r.currency == c)).Sublist
          (rows.filter (fun r => r.currency == c)))
      ∧ deleteTicked rows c ticked
          = rows.filter (fun r => r.currency != c)
            ++ (((rows.filter (fun r => r.currency == c)).enum.filter
                  (fun p => !(ticked.contains (p.1 + 1)))).map Prod.snd)
      ∧ deleteTicked [dealRM, dealUSD] "RM" [2] = [dealUSD, dealRM]
      ∧ ([dealUSD, dealRM] : List Deal) ≠ [dealRM, dealUSD] := by
  have heq := deleteTicked_eq rows c ticked h
  have hkeepsub : ((((rows.filter (fun r => r.currency == c)).enum.filter
      (fun p => !(ticked.contains (p.1 + 1)))).map Prod.snd)).Sublist
      (rows.filter (fun r => r.currency == c)) :=
    enum_filter_map_sublist _ _
  have hkeepmem : ∀ a ∈ (((rows.filter (fun r => r.currency == c)).enum.filter
      (fun p => !(ticked.contains (p.1 + 1)))).map Prod.snd),
      (a.currency == c) = true := by
    intro a ha
    exact (List.mem_filter.mp (hkeepsub.subset ha)).2
  refine ⟨?_, ?_, heq, by decide, by decide⟩
  · rw [heq, List.filter_append]
    have h1 : (rows.filter (fun r => r.currency != c)).filter (fun r => r.currency != c)
        = rows.filter (fun r => r.currency != c) :=
      List.filter_eq_self.mpr (fun a ha => (List.mem_filter.mp ha).2)
    have h2 : ((((rows.filter (fun r => r.currency == c)).enum.filter
        (fun p => !(ticked.contains (p.1 + 1)))).map Prod.snd)).filter
          (fun r => r.currency != c) = [] := by
      refine List.filter_eq_nil_iff.mpr ?_
      intro a ha
      simp only [bne, hkeepmem a ha, Bool.not_true, Bool.false_eq_true,
        not_false_eq_true]
    rw [h1, h2, List.append_nil]
  · rw [heq, List.filter_append]
    have h1 : (rows.filter (fun r => r.currency != c)).filter
        (fun r => r.currency == c) = [] := by
      refine List.filter_eq_nil_iff.mpr ?_
      intro a ha
      have hb := (List.mem_filter.mp ha).2
      simp only [bne] at hb
      simp [Bool.not_eq_true] at hb ⊢
      exact hb
    have h2 : ((((rows.filter (fun r => r.currency == c)).enum.filter
        (fun p => !(ticked.contains (p.1 + 1)))).map Prod.snd)).filter
          (fun r => r.currency == c)
        = (((rows.filter (fun r => r.currency == c)).enum.filter
            (fun p => !(ticked.contains (p.1 + 1)))).map Prod.snd) :=
      List.filter_eq_self.mpr hkeepmem
    rw [h1, h2, List.nil_append]
    exact hkeepsub

/-- Witness for C10: ticking row 2 (absent) under RM with one RM and one
USD deal saved deletes nothing but reorders the list. -/
theorem delete_ticked_frame_witness :
    ([2] : List ℕ) ≠ []
      ∧ deleteTicked [dealRM, dealUSD] "RM" [2] = [dealUSD, dealRM] :=
  ⟨by decide, (delete_ticked_frame [dealRM, dealUSD] "RM" [2] (by decide)).2.2.2.1⟩

end CommissionApp
